/-
Verification of the contract-artifact data model of the `gascomps` repository
(the `ethpm_types` library bundled in its environment: `sourcemap.py`, `abi.py`,
`contract_type.py`, `manifest.py`, `source.py`, `ast.py`).

The Python code is shallowly embedded: pure methods become Lean functions,
Python `int` becomes `Int`, Python `None`/values become `Option`, dynamically
typed cells (`int` or `str`) become the `PyVal` sum, exceptions become
`Option`/`Except`.  Python truthiness (`x or default`) is translated at each
call site for the concrete type that flows there (for `int`: `0` is falsy; for
`str`: `""` is falsy; `None` is falsy).
-/
import Mathlib

namespace GasComps

/-! ## Python string primitives

`splitChar` models Python's `str.split(sep)` for a one-character separator,
over the character list of the string.  `"".split(sep) == [""]`, a trailing
separator yields a trailing empty chunk, adjacent separators yield empty
chunks in between. -/

def splitChar : List Char → Char → List (List Char)
  | [], _ => [[]]
  | c :: rest, sep =>
    match splitChar rest sep with
    | [] => [[]]
    | h :: t => if c = sep then [] :: h :: t else (c :: h) :: t

theorem splitChar_ne_nil (l : List Char) (sep : Char) : splitChar l sep ≠ [] := by
  cases l with
  | nil => simp [splitChar]
  | cons c rest =>
    simp only [splitChar]
    cases h : splitChar rest sep with
    | nil => simp
    | cons h t =>
      by_cases hc : c = sep <;> simp [hc]

/-- Python's `str.strip()` whitespace set, restricted to the ASCII whitespace
characters (the inputs of interest are ASCII). -/
def isPySpace (c : Char) : Bool :=
  c = ' ' || c = '\t' || c = '\n' || c = '\r' || c = '\x0b' || c = '\x0c'

/-- Python's `str.strip()`: drop whitespace from both ends. -/
def pyStripChars (l : List Char) : List Char :=
  ((l.dropWhile isPySpace).reverse.dropWhile isPySpace).reverse

/-- Python's `str.isnumeric()` on ASCII text: nonempty and all digits. -/
def charsIsNumeric (l : List Char) : Bool :=
  !l.isEmpty && l.all (·.isDigit)

def charsToNat (l : List Char) : Nat :=
  l.foldl (fun acc c => 10 * acc + (c.toNat - '0'.toNat)) 0

/-- Digit-string parsing used to model Python's `int(s)` on the digits part. -/
def digitsToNat? (l : List Char) : Option Nat :=
  if charsIsNumeric l then some (charsToNat l) else none

/-- Python's `int(s)` for a string argument: strip whitespace, allow one
optional sign, then digits; anything else raises `ValueError` (`none`). -/
def pyIntOfStr (s : String) : Option Int :=
  match pyStripChars s.toList with
  | '-' :: rest => (digitsToNat? rest).map (fun n => -(n : Int))
  | '+' :: rest => (digitsToNat? rest).map (fun n => (n : Int))
  | rest => (digitsToNat? rest).map (fun n => (n : Int))

/-! ## `sourcemap.py` -/

/-- A dynamically typed source-map cell: `int(i) if i.isnumeric() else i`. -/
inductive PyVal where
  | int (i : Int)
  | str (s : String)
deriving DecidableEq, Repr

/-- The list comprehension in `SourceMapItem.parse_str`:
`[int(i) if i.isnumeric() else i for i in src_str.split(":")]`. -/
def coerceCell (l : List Char) : PyVal :=
  if charsIsNumeric l then .int (charsToNat l : Int) else .str (String.mk l)

/-- Python's `int(v)` on a cell value (identity on `int`, parse on `str`). -/
def pyInt : PyVal → Option Int
  | .int i => some i
  | .str s => pyIntOfStr s

/-- `SourceMapItem` (sourcemap.py).  `None` numeric entries mean the path was
inserted by the compiler during codegen.  `jump_code` is kept as a `PyVal`
because `SourceMapItem.construct` skips pydantic validation, so a numeric
cell flows into the field unconverted. -/
structure SourceMapItem where
  start : Option Int
  length : Option Int
  contract_id : Option Int
  jump_code : PyVal
deriving DecidableEq, Repr

/-- `SourceMapItem._extract_value(row, item_idx)` with the default
`previous=None`: the cell if present and non-empty, else `None`. -/
def extractValue (row : List PyVal) (idx : Nat) : Option PyVal :=
  match row[idx]? with
  | some v => if v = .str "" then none else some v
  | none => none

/-- `SourceMapItem._extract_value(row, item_idx, previous=d)` with a non-`None`
`previous` argument `d`: the cell if present and non-empty, else `d`. -/
def extractValueD (row : List PyVal) (idx : Nat) (d : PyVal) : PyVal :=
  match row[idx]? with
  | some v => if v = .str "" then d else v
  | none => d

/-- Python `x or -1` applied to an optional cell (`None`, `0` and `""` are
falsy). -/
def pyOrNeg1 : Option PyVal → PyVal
  | none => .int (-1)
  | some (.int 0) => .int (-1)
  | some (.str "") => .int (-1)
  | some v => v

/-- Python `x or ""` applied to an optional cell. -/
def pyOrEmpty : Option PyVal → PyVal
  | none => .str ""
  | some (.int 0) => .str ""
  | some (.str "") => .str ""
  | some v => v

/-- Python `previous.start or -1` for an `Optional[int]` field. -/
def optOrNeg1 : Option Int → Int
  | none => -1
  | some v => if v = 0 then -1 else v

/-- Python `previous.jump_code or ""` for the `jump_code` field. -/
def pyValOrEmptyStr : PyVal → PyVal
  | .int 0 => .str ""
  | .str "" => .str ""
  | v => v

/-- The `SourceMapItem.construct(...)` call at the end of `parse_str`:
`-1` for the three numeric entries means `None`. -/
def constructItem (start length contract_id : Int) (jump_code : PyVal) :
    SourceMapItem :=
  { start := if start = -1 then none else some start
    length := if length = -1 then none else some length
    contract_id := if contract_id = -1 then none else some contract_id
    jump_code := jump_code }

/-- `SourceMapItem.parse_str(src_str, previous)`.  `none` models a Python
`ValueError` escaping from `int(...)`. -/
def parse_str (src_str : String) (previous : Option SourceMapItem) :
    Option SourceMapItem :=
  let row : List PyVal := (splitChar src_str.toList ':').map coerceCell
  match previous with
  | none => do
    let start ← pyInt (pyOrNeg1 (extractValue row 0))
    let length ← pyInt (pyOrNeg1 (extractValue row 1))
    let contract_id ← pyInt (pyOrNeg1 (extractValue row 2))
    let jump_code := pyOrEmpty (extractValue row 3)
    some (constructItem start length contract_id jump_code)
  | some prev => do
    let start ← pyInt (extractValueD row 0 (.int (optOrNeg1 prev.start)))
    let length ← pyInt (extractValueD row 1 (.int (optOrNeg1 prev.length)))
    let contract_id ← pyInt (extractValueD row 2 (.int (optOrNeg1 prev.contract_id)))
    let jump_code := extractValueD row 3 (pyValOrEmptyStr prev.jump_code)
    some (constructItem start length contract_id jump_code)

/-- The loop body of `SourceMap.parse`: thread each parsed item as the
`previous` of the next chunk, collecting the yielded items. -/
def parseChunks : List String → Option SourceMapItem → Option (List SourceMapItem)
  | [], _ => some []
  | c :: rest, prev => do
    let item ← parse_str c prev
    let items ← parseChunks rest (some item)
    some (item :: items)

/-- `SourceMap.parse()`: split the stripped map string on `;` and decode each
chunk with the previous item threaded through. -/
def sourceMapParse (s : String) : Option (List SourceMapItem) :=
  parseChunks ((splitChar (pyStripChars s.toList) ';').map String.mk) none

/-- The record produced for an empty chunk (`""`) given a previous record:
each field is copied, except that an unset, zero (or for the jump code,
empty/zero) previous field is inherited as unset/empty. -/
def inheritNum : Option Int → Option Int
  | none => none
  | some v => if v = 0 then none else if v = -1 then none else some v

def inheritStr : PyVal → PyVal
  | .int 0 => .str ""
  | .str "" => .str ""
  | v => v

def repeatPrev (prev : SourceMapItem) : SourceMapItem :=
  { start := inheritNum prev.start
    length := inheritNum prev.length
    contract_id := inheritNum prev.contract_id
    jump_code := inheritStr prev.jump_code }

/-- `PCMapItem` (sourcemap.py). -/
structure PCMapItem where
  line_start : Option Int := none
  column_start : Option Int := none
  line_end : Option Int := none
  column_end : Option Int := none
  dev : Option String := none
deriving DecidableEq, Repr

/-- `PCMapItem.location`: each component is `field or -1`. -/
def PCMapItem.location (it : PCMapItem) : Int × Int × Int × Int :=
  (optOrNeg1 it.line_start, optOrNeg1 it.column_start,
   optOrNeg1 it.line_end, optOrNeg1 it.column_end)

/-! ### Source-map helper lemmas -/

theorem splitChar_append_sep (l : List Char) (sep : Char) :
    splitChar (l ++ [sep]) sep = splitChar l sep ++ [[]] := by
  induction l with
  | nil => simp [splitChar]
  | cons c rest ih =>
    simp only [List.cons_append, splitChar]
    cases h : splitChar rest sep with
    | nil => exact absurd h (splitChar_ne_nil rest sep)
    | cons hd tl =>
      simp only [List.append_eq]
      rw [ih, h]
      by_cases hc : c = sep <;> simp [hc]

theorem pyStripChars_of_no_space (l : List Char)
    (h : ∀ c ∈ l, isPySpace c = false) : pyStripChars l = l := by
  unfold pyStripChars
  have h1 : l.dropWhile isPySpace = l := by
    cases l with
    | nil => rfl
    | cons c rest =>
      rw [List.dropWhile_cons_of_neg]
      simp [h c (by simp)]
  rw [h1]
  have h2 : l.reverse.dropWhile isPySpace = l.reverse := by
    cases hr : l.reverse with
    | nil => rfl
    | cons c rest =>
      rw [List.dropWhile_cons_of_neg]
      have : c ∈ l := by
        rw [← List.mem_reverse, hr]; simp
      simp [h c this]
  rw [h2, List.reverse_reverse]

/-- An empty chunk given a previous record reproduces the previous record up
to the zero/unset collapse. -/
theorem parse_str_empty_prev (prev : SourceMapItem) :
    parse_str "" (some prev) = some (repeatPrev prev) := by
  obtain ⟨s, l, c, j⟩ := prev
  have hfield : ∀ o : Option Int,
      (if optOrNeg1 o = -1 then none else some (optOrNeg1 o)) = inheritNum o := by
    intro o
    cases o with
    | none => simp [optOrNeg1, inheritNum]
    | some v =>
      by_cases h0 : v = 0
      · simp [optOrNeg1, inheritNum, h0]
      · by_cases h1 : v = -1 <;> simp [optOrNeg1, inheritNum, h0, h1]
  have hjump : ∀ v : PyVal, pyValOrEmptyStr v = inheritStr v := by
    intro v
    cases v with
    | int i =>
      by_cases h : i = 0 <;> simp [pyValOrEmptyStr, inheritStr, h]
    | str s =>
      by_cases h : s = "" <;> simp [pyValOrEmptyStr, inheritStr, h]
  simp only [parse_str, repeatPrev]
  have hrow : (splitChar "".toList ':').map coerceCell = [.str ""] := by rfl
  rw [hrow]
  simp only [extractValueD, constructItem]
  simp only [List.getElem?_cons_zero, List.getElem?_nil, if_pos rfl,
    Option.bind_eq_bind, pyInt, Option.some_bind]
  simp [hfield, hjump]

/-- The `previous` argument passed to the next chunk after a list of parsed
items: the last parsed item if any, else the original previous. -/
def threadPrev (items : List SourceMapItem) (prev : Option SourceMapItem) :
    Option SourceMapItem :=
  match items.getLast? with
  | some r => some r
  | none => prev

theorem threadPrev_cons (it : SourceMapItem) (items : List SourceMapItem)
    (prev : Option SourceMapItem) :
    threadPrev (it :: items) prev = threadPrev items (some it) := by
  cases items with
  | nil => rfl
  | cons h t =>
    cases hgl : (h :: t).getLast? with
    | none => exact absurd (List.getLast?_eq_none_iff.mp hgl) (by simp)
    | some x => simp [threadPrev, List.getLast?_cons_cons, hgl]

theorem parseChunks_append_single (chunks : List String)
    (prev : Option SourceMapItem) (items : List SourceMapItem) (c : String)
    (h : parseChunks chunks prev = some items) :
    parseChunks (chunks ++ [c]) prev =
      (parse_str c (threadPrev items prev)).map (fun it => items ++ [it]) := by
  induction chunks generalizing prev items with
  | nil =>
    simp only [parseChunks] at h
    obtain rfl : items = [] := by simpa using h.symm
    simp only [List.nil_append, parseChunks, threadPrev, List.getLast?]
    cases parse_str c prev <;> simp [parseChunks]
  | cons ch rest ih =>
    simp only [parseChunks, Option.bind_eq_bind] at h
    cases hph : parse_str ch prev with
    | none => rw [hph] at h; simp at h
    | some item =>
      rw [hph] at h
      simp only [Option.some_bind] at h
      cases hrest : parseChunks rest (some item) with
      | none => rw [hrest] at h; simp at h
      | some items' =>
        rw [hrest] at h
        simp only [Option.some_bind, Option.some_inj] at h
        subst h
        rw [List.cons_append]
        simp only [parseChunks, Option.bind_eq_bind, hph, Option.some_bind]
        rw [ih (some item) items' hrest, threadPrev_cons]
        cases parse_str c (threadPrev items' (some item)) <;> simp

/-- C1 (amended): delta decoding.  (1) On `"1:2:3:a;;4::5:b"` the decoder
yields three records; the empty middle entry repeats the first record and the
final record is `start=4, length=2` (inherited), `contract_id=5`,
`jump_code="b"`.  (2) An empty entry inherits every field of the preceding
record, except that an unset / zero-valued (for the jump code: empty) previous
field is inherited as unset (resp. empty).  (3) In the first record a present,
non-empty numeric field with value `0` is not used as-is but parsed as unset. -/
theorem sourceMap_delta_decoding :
    sourceMapParse "1:2:3:a;;4::5:b" =
      some [⟨some 1, some 2, some 3, .str "a"⟩,
            ⟨some 1, some 2, some 3, .str "a"⟩,
            ⟨some 4, some 2, some 5, .str "b"⟩]
    ∧ (∀ prev, parse_str "" (some prev) = some (repeatPrev prev))
    ∧ parse_str "0:2:3:a" none = some ⟨none, some 2, some 3, .str "a"⟩ :=
  ⟨by decide, parse_str_empty_prev, by decide⟩

/-- C1 counterexample: the first record of `"0:2:3:a"` has its present,
non-empty `start` field `0` parsed as unset (`none`), not used as-is
(`some 0`), because `parse_str` computes `int(value or -1)`. -/
theorem sourceMap_zero_not_as_is :
    sourceMapParse "0:2:3:a" ≠ some [⟨some 0, some 2, some 3, .str "a"⟩]
    ∧ sourceMapParse "0:2:3:a" = some [⟨none, some 2, some 3, .str "a"⟩] :=
  ⟨by decide, by decide⟩

/-- C8 (amended): a trailing `";"` contributes exactly one extra record — an
empty entry that repeats the final record (with unset/zero fields collapsing
per the inheritance rule) — rather than no record at all. -/
theorem sourceMap_trailing_semicolon (s : String) (items : List SourceMapItem)
    (r : SourceMapItem)
    (hws : ∀ ch ∈ s.toList, isPySpace ch = false)
    (hp : sourceMapParse s = some items)
    (hl : items.getLast? = some r) :
    sourceMapParse (s ++ ";") = some (items ++ [repeatPrev r]) := by
  have htl : (s ++ ";").toList = s.toList ++ [';'] := by
    simp [String.toList, String.data_append]
  unfold sourceMapParse at hp ⊢
  rw [htl]
  have hns : ∀ c ∈ s.toList ++ [';'], isPySpace c = false := by
    intro c hc
    rcases List.mem_append.mp hc with h | h
    · exact hws c h
    · simp only [List.mem_singleton] at h
      subst h
      decide
  rw [pyStripChars_of_no_space _ hns, splitChar_append_sep, List.map_append]
  rw [pyStripChars_of_no_space _ hws] at hp
  rw [show (([[]] : List (List Char)).map String.mk) = [""] from rfl]
  rw [parseChunks_append_single _ _ _ _ hp]
  have hthread : threadPrev items none = some r := by simp [threadPrev, hl]
  rw [hthread, parse_str_empty_prev]
  rfl

/-- C8 witness: the trailing-semicolon theorem instantiated at `"1:2:3:a"`. -/
theorem sourceMap_trailing_semicolon_witness :
    (∀ ch ∈ "1:2:3:a".toList, isPySpace ch = false)
    ∧ sourceMapParse "1:2:3:a" = some [⟨some 1, some 2, some 3, .str "a"⟩]
    ∧ ([(⟨some 1, some 2, some 3, .str "a"⟩ : SourceMapItem)]).getLast? =
        some ⟨some 1, some 2, some 3, .str "a"⟩
    ∧ sourceMapParse ("1:2:3:a" ++ ";") =
        some ([⟨some 1, some 2, some 3, .str "a"⟩] ++
          [repeatPrev ⟨some 1, some 2, some 3, .str "a"⟩]) :=
  ⟨by decide, by decide, by decide,
    sourceMap_trailing_semicolon "1:2:3:a" _ _ (by decide) (by decide) (by decide)⟩

/-- C8 counterexample: `"1:2:3:a;"` parses to two records while `"1:2:3:a"`
parses to one, so the parsed sequences are not identical. -/
theorem sourceMap_trailing_semicolon_extra_record :
    sourceMapParse "1:2:3:a;" ≠ sourceMapParse "1:2:3:a"
    ∧ sourceMapParse "1:2:3:a;" =
        some [⟨some 1, some 2, some 3, .str "a"⟩,
              ⟨some 1, some 2, some 3, .str "a"⟩]
    ∧ sourceMapParse "1:2:3:a" = some [⟨some 1, some 2, some 3, .str "a"⟩] :=
  ⟨by decide, by decide, by decide⟩

/-! ## `abi.py` -/

/-- Substring containment, modeling Python's `"sub" in s`. -/
def listContainsSub (hay needle : List Char) : Bool :=
  needle.isPrefixOf hay ||
    match hay with
    | [] => false
    | _ :: t => listContainsSub t needle

def strContains (hay sub : String) : Bool :=
  listContainsSub hay.toList sub.toList

/-- Python's `",".join(parts)` as used by the selector properties. -/
def joinComma : List String → String
  | [] => ""
  | [x] => x
  | x :: xs => x ++ "," ++ joinComma xs

/-- `ABIType` (abi.py): `type` is either a raw type string or a nested
`ABIType`; `components` is the optional list of sub-types.  (The `name` and
`internalType` fields are omitted: they are not read by `canonical_type` or
by the `selector` properties, the only methods the claims concern.) -/
inductive ABIType where
  | mk (type : Sum String ABIType) (components : Option (List ABIType))

/-- Python's `s.split('[')[-1]`. -/
def pyLastSplitPart (s : String) (sep : Char) : String :=
  String.mk ((splitChar s.toList sep).getLastD [])

mutual

/-- `ABIType.canonical_type` (abi.py): a tuple type (detected by the literal
`"tuple"` marker in the type string, with truthy — non-`None`, nonempty —
components) renders as the comma-joined canonical components in parentheses,
with any array suffix reattached; a plain string type is canonical as-is; a
nested `ABIType` type recurses (for it, Python's `"tuple" in self.type` is
`False` since iterating a model yields field tuples). -/
def ABIType.canonicalType : ABIType → String
  | .mk (.inl s) (some comps) =>
    if strContains s "tuple" && !comps.isEmpty then
      let value := "(" ++ joinComma (canonicalTypeList comps) ++ ")"
      if strContains s "[" then value ++ "[" ++ pyLastSplitPart s '[' else value
    else s
  | .mk (.inl s) none => s
  | .mk (.inr t) _ => ABIType.canonicalType t

/-- The generator `(m.canonical_type for m in components)`. -/
def canonicalTypeList : List ABIType → List String
  | [] => []
  | t :: ts => ABIType.canonicalType t :: canonicalTypeList ts

end

/-- `MethodABI` (abi.py).  The `type` discriminator is the constant
`"function"` and the `contract_type` back-reference does not affect the
selector, so both are omitted. -/
structure MethodABI where
  name : String
  stateMutability : String := "nonpayable"
  inputs : List ABIType := []
  outputs : List ABIType := []

/-- `MethodABI.selector`: `f"{self.name}({inputs})"` with comma-joined
canonical input types and no spaces. -/
def MethodABI.selector (m : MethodABI) : String :=
  m.name ++ "(" ++ joinComma (canonicalTypeList m.inputs) ++ ")"

/-- `ConstructorABI` (abi.py); `type` is the constant `"constructor"`. -/
structure ConstructorABI where
  stateMutability : String := "nonpayable"
  inputs : List ABIType := []

/-- `ConstructorABI.is_payable`. -/
def ConstructorABI.is_payable (c : ConstructorABI) : Bool :=
  c.stateMutability == "payable"

/-- The `ABI` tagged union (abi.py), dispatched in Python by the `type`
field.  Only the constructor and function payloads are carried in full; the
other variants' fields are not read by any claimed operation. -/
inductive ABI where
  | constructor (c : ConstructorABI)
  | fallback (stateMutability : String)
  | receive
  | function (m : MethodABI)
  | event (name : String)
  | error (name : String)
  | struct (name : String)
  | unprocessed (type : String)

def ABI.isConstructor : ABI → Bool
  | .constructor _ => true
  | _ => false

/-! ## `contract_type.py` -/

/-- The error kinds raised by `ABIList.__getitem__`. -/
inductive LookupErr where
  | keyError
  | valueError
  | notImplementedError
deriving DecidableEq, Repr

/-- `ABIList` (contract_type.py): a list of ABI entries with a configured
selector byte-width and optional selector hash function (hash values are
byte lists). -/
structure ABIList where
  entries : List MethodABI
  selector_id_size : Nat := 32
  selector_hash_fn : Option (String → List Nat) := none

/-- eth_utils `is_0x_prefixed`: `value.startswith(("0x", "0X"))`. -/
def is0xPrefixed (s : String) : Bool :=
  ['0', 'x'].isPrefixOf s.toList || ['0', 'X'].isPrefixOf s.toList

def hexDigitVal (c : Char) : Option Nat :=
  let v := c.toNat
  if 48 ≤ v ∧ v ≤ 57 then some (v - 48)
  else if 97 ≤ v ∧ v ≤ 102 then some (10 + (v - 97))
  else if 65 ≤ v ∧ v ≤ 70 then some (10 + (v - 65))
  else none

def hexPairs : List Char → Option (List Nat)
  | [] => some []
  | [_] => none
  | a :: b :: rest => do
    let hi ← hexDigitVal a
    let lo ← hexDigitVal b
    let tl ← hexPairs rest
    some ((16 * hi + lo) :: tl)

/-- `HexBytes(selector)` on a hex string: strip any `0x`/`0X` prefix,
left-pad to even length, decode pairs; `none` models the raised error on a
malformed hex string. -/
def hexBytesOfString (s : String) : Option (List Nat) :=
  let body := if is0xPrefixed s then s.toList.drop 2 else s.toList
  let body := if body.length % 2 = 1 then '0' :: body else body
  hexPairs body

/-- `ABIList.__getitem_bytes`: with a configured hash function, the first
entry whose hashed selector matches the supplied bytes on the first
`selector_id_size` bytes of both sides; with no hash function, a `KeyError`
regardless of contents. -/
def ABIList.getitem_bytes (l : ABIList) (selector : List Nat) :
    Except LookupErr MethodABI :=
  match l.selector_hash_fn with
  | some f =>
    match l.entries.find? (fun abi =>
        (f abi.selector).take l.selector_id_size ==
          selector.take l.selector_id_size) with
    | some abi => .ok abi
    | none => .error .keyError
  | none => .error .keyError

/-- `ABIList.__getitem_str`: a parenthesised key is matched against full
selectors; a `0x`-prefixed key is decoded to bytes and dispatched to the
bytes lookup; otherwise the key is matched against names (first match). -/
def ABIList.getitem_str (l : ABIList) (selector : String) :
    Except LookupErr MethodABI :=
  if strContains selector "(" then
    match l.entries.find? (fun abi => abi.selector == selector) with
    | some abi => .ok abi
    | none => .error .keyError
  else if is0xPrefixed selector then
    match hexBytesOfString selector with
    | some bs => l.getitem_bytes bs
    | none => .error .valueError
  else
    match l.entries.find? (fun abi => abi.name == selector) with
    | some abi => .ok abi
    | none => .error .keyError

/-- `ContractType._get_first_instance(ConstructorABI)`: the first entry of
the abi list that is a constructor. -/
def getFirstInstanceConstructor : List ABI → Option ConstructorABI
  | [] => none
  | .constructor c :: _ => some c
  | _ :: rest => getFirstInstanceConstructor rest

/-- `ContractType` (contract_type.py).  Bytecode, maps, AST and doc fields
are omitted: the claims about `ContractType` concern `source_id` and the
`constructor` property over `abi` only. -/
structure ContractType where
  name : Option String := none
  source_id : Option String := none
  abi : List ABI := []

/-- The `ContractType.constructor` property: the first constructor entry, or
`ConstructorABI(type="constructor")` (all defaults) when none is defined. -/
def ContractType.constructor (ct : ContractType) : ConstructorABI :=
  match getFirstInstanceConstructor ct.abi with
  | some c => c
  | none => { stateMutability := "nonpayable", inputs := [] }

/-! ### Comma-join injectivity machinery (for the selector claims) -/

/-- Character-level view of `joinComma`. -/
def joinCommaChars : List (List Char) → List Char
  | [] => []
  | [x] => x
  | x :: xs => x ++ ',' :: joinCommaChars xs

theorem joinComma_toList : ∀ l : List String,
    (joinComma l).toList = joinCommaChars (l.map String.toList)
  | [] => rfl
  | [x] => rfl
  | x :: y :: xs => by
    simp only [joinComma, joinCommaChars, List.map_cons]
    rw [show (x ++ "," ++ joinComma (y :: xs)).toList
        = x.toList ++ ',' :: (joinComma (y :: xs)).toList from by
      simp [String.toList, String.data_append]]
    rw [joinComma_toList (y :: xs)]
    rfl

theorem listContainsSub_singleton (l : List Char) (c : Char) :
    listContainsSub l [c] = l.contains c := by
  induction l with
  | nil => rfl
  | cons d t ih =>
    simp only [listContainsSub]
    rw [ih]
    simp only [List.isPrefixOf, List.contains_cons, beq_eq_decide,
      Bool.and_true, List.isPrefixOf_nil_left]

/-- Splitting at the first comma is unambiguous for comma-free prefixes. -/
theorem comma_split_unique : ∀ (a b r1 r2 : List Char),
    ',' ∉ a → ',' ∉ b → a ++ ',' :: r1 = b ++ ',' :: r2 → a = b ∧ r1 = r2 := by
  intro a
  induction a with
  | nil =>
    intro b r1 r2 _ hb h
    cases b with
    | nil => simpa using h
    | cons d b' =>
      simp only [List.nil_append, List.cons_append, List.cons.injEq] at h
      exact absurd (h.1 ▸ List.mem_cons_self d b') hb
  | cons c a' ih =>
    intro b r1 r2 ha hb h
    cases b with
    | nil =>
      simp only [List.cons_append, List.nil_append, List.cons.injEq] at h
      exact absurd (h.1 ▸ List.mem_cons_self c a') ha
    | cons d b' =>
      simp only [List.cons_append, List.cons.injEq] at h
      obtain ⟨rfl, h2⟩ := h
      have := ih b' r1 r2 (fun hm => ha (List.mem_cons_of_mem _ hm))
        (fun hm => hb (List.mem_cons_of_mem _ hm)) h2
      exact ⟨by rw [this.1], this.2⟩

/-- `",".join` is injective on lists of nonempty comma-free parts. -/
theorem joinCommaChars_inj : ∀ (l1 l2 : List (List Char)),
    (∀ x ∈ l1, ',' ∉ x ∧ x ≠ []) → (∀ x ∈ l2, ',' ∉ x ∧ x ≠ []) →
    joinCommaChars l1 = joinCommaChars l2 → l1 = l2 := by
  intro l1
  induction l1 with
  | nil =>
    intro l2 _ h2 h
    cases l2 with
    | nil => rfl
    | cons y ys =>
      cases ys with
      | nil =>
        exact absurd (by simpa [joinCommaChars] using h.symm) (h2 y (by simp)).2
      | cons z zs =>
        simp only [joinCommaChars] at h
        exact absurd (h ▸ List.mem_append_right y (List.mem_cons_self ',' _))
          (by simp)
  | cons x xs ih =>
    intro l2 h1 h2 h
    cases l2 with
    | nil =>
      cases xs with
      | nil =>
        exact absurd (by simpa [joinCommaChars] using h) (h1 x (by simp)).2
      | cons z zs =>
        simp only [joinCommaChars] at h
        exact absurd (h ▸ List.mem_append_right x (List.mem_cons_self ',' _))
          (by simp)
    | cons y ys =>
      cases xs with
      | nil =>
        cases ys with
        | nil => simpa [joinCommaChars] using h
        | cons w ws =>
          simp only [joinCommaChars] at h
          exact absurd (h ▸ List.mem_append_right y (List.mem_cons_self ',' _))
            ((h1 x (by simp)).1)
      | cons z zs =>
        cases ys with
        | nil =>
          simp only [joinCommaChars] at h
          exact absurd (h ▸ List.mem_append_right x (List.mem_cons_self ',' _))
            ((h2 y (by simp)).1)
        | cons w ws =>
          simp only [joinCommaChars] at h
          obtain ⟨rfl, h2'⟩ := comma_split_unique x y _ _
            (h1 x (by simp)).1 (h2 y (by simp)).1 h
          have := ih (w :: ws) (fun u hu => h1 u (List.mem_cons_of_mem _ hu))
            (fun u hu => h2 u (List.mem_cons_of_mem _ hu)) h2'
          rw [this]

theorem string_toList_inj {s t : String} (h : s.toList = t.toList) : s = t := by
  cases s
  cases t
  simp only [String.toList] at h
  rw [h]

theorem selector_toList (m : MethodABI) :
    m.selector.toList =
      m.name.toList ++
        '(' :: ((joinComma (canonicalTypeList m.inputs)).toList ++ [')']) := by
  simp [MethodABI.selector, String.toList, String.data_append]

theorem selector_contains_paren (m : MethodABI) :
    strContains m.selector "(" = true := by
  have h : '(' ∈ m.selector.toList := by
    rw [selector_toList]
    exact List.mem_append_right _ (List.mem_cons_self _ _)
  rw [strContains, show "(".toList = ['('] from rfl, listContainsSub_singleton]
  exact List.elem_eq_true_of_mem h

theorem strContains_comma_false_not_mem {t : String}
    (h : strContains t "," = false) : ',' ∉ t.toList := by
  rw [strContains, show ",".toList = [','] from rfl, listContainsSub_singleton] at h
  intro hm
  have hc : t.toList.contains ',' = true := List.elem_eq_true_of_mem hm
  rw [hc] at h
  exact absurd h (by decide)

theorem toList_ne_nil_of_ne_empty {t : String} (h : t ≠ "") : t.toList ≠ [] := by
  intro hnil
  exact h (string_toList_inj (by simpa using hnil))

/-- C4 (amended): in an `ABIList` holding exactly two function entries with
the same name, different canonical parameter-type lists, comma-free nonempty
canonical types and an ordinary name (no parenthesis, not `0x`-prefixed),
the selectors differ, indexing with each full selector string returns exactly
that entry, and indexing with the bare shared name returns the
first-declared entry. -/
theorem abilist_selector_overload (m1 m2 : MethodABI)
    (hname : m1.name = m2.name)
    (hdiff : canonicalTypeList m1.inputs ≠ canonicalTypeList m2.inputs)
    (hok1 : ∀ t ∈ canonicalTypeList m1.inputs, strContains t "," = false ∧ t ≠ "")
    (hok2 : ∀ t ∈ canonicalTypeList m2.inputs, strContains t "," = false ∧ t ≠ "")
    (hnp : strContains m1.name "(" = false)
    (hn0x : is0xPrefixed m1.name = false) :
    m1.selector ≠ m2.selector
    ∧ ABIList.getitem_str ⟨[m1, m2], 4, none⟩ m1.selector = .ok m1
    ∧ ABIList.getitem_str ⟨[m1, m2], 4, none⟩ m2.selector = .ok m2
    ∧ ABIList.getitem_str ⟨[m1, m2], 4, none⟩ m1.name = .ok m1 := by
  have hsel : m1.selector ≠ m2.selector := by
    intro heq
    have hdata := congrArg String.toList heq
    rw [selector_toList, selector_toList, hname] at hdata
    have h1 := List.append_cancel_left hdata
    have h2 := List.cons.inj h1
    have h3 := List.append_cancel_right h2.2
    rw [joinComma_toList, joinComma_toList] at h3
    have hmap := joinCommaChars_inj _ _
      (by
        intro x hx
        obtain ⟨t, ht, rfl⟩ := List.mem_map.mp hx
        exact ⟨strContains_comma_false_not_mem (hok1 t ht).1,
          toList_ne_nil_of_ne_empty (hok1 t ht).2⟩)
      (by
        intro x hx
        obtain ⟨t, ht, rfl⟩ := List.mem_map.mp hx
        exact ⟨strContains_comma_false_not_mem (hok2 t ht).1,
          toList_ne_nil_of_ne_empty (hok2 t ht).2⟩)
      h3
    exact hdiff (List.map_injective_iff.mpr (fun _ _ => string_toList_inj) hmap)
  refine ⟨hsel, ?_, ?_, ?_⟩
  · rw [ABIList.getitem_str, if_pos (selector_contains_paren m1)]
    simp [List.find?]
  · rw [ABIList.getitem_str, if_pos (selector_contains_paren m2)]
    have hbne : (m1.selector == m2.selector) = false := by
      simpa [beq_eq_decide] using hsel
    simp [List.find?, hbne]
  · rw [ABIList.getitem_str, if_neg (by simp [hnp]), if_neg (by simp [hn0x])]
    simp [List.find?]

/-- C4 counterexample: two function entries named `f` whose canonical
parameter-type lists differ (`["(uint256,address)"]` versus
`["(uint256", "address)"]`) yet whose selector strings coincide, because the
comma-join of canonical types is not injective when a canonical type
contains a comma. -/
theorem abilist_selector_overload_counterexample :
    canonicalTypeList [ABIType.mk (.inl "(uint256,address)") none] ≠
      canonicalTypeList [ABIType.mk (.inl "(uint256") none,
        ABIType.mk (.inl "address)") none]
    ∧ (MethodABI.selector
        ⟨"f", "nonpayable", [ABIType.mk (.inl "(uint256,address)") none], []⟩) =
      (MethodABI.selector
        ⟨"f", "nonpayable", [ABIType.mk (.inl "(uint256") none,
          ABIType.mk (.inl "address)") none], []⟩) :=
  ⟨by decide, by decide⟩

/-- C4 witness: the overload theorem instantiated at two overloads of
`transfer`. -/
theorem abilist_selector_overload_witness :
    (MethodABI.name ⟨"transfer", "nonpayable",
        [ABIType.mk (.inl "address") none, ABIType.mk (.inl "uint256") none], []⟩ =
      MethodABI.name ⟨"transfer", "nonpayable",
        [ABIType.mk (.inl "address") none, ABIType.mk (.inl "address") none,
         ABIType.mk (.inl "uint256") none], []⟩)
    ∧ (MethodABI.selector ⟨"transfer", "nonpayable",
        [ABIType.mk (.inl "address") none, ABIType.mk (.inl "uint256") none], []⟩ ≠
      MethodABI.selector ⟨"transfer", "nonpayable",
        [ABIType.mk (.inl "address") none, ABIType.mk (.inl "address") none,
         ABIType.mk (.inl "uint256") none], []⟩) := by
  constructor
  · rfl
  · exact (abilist_selector_overload
      ⟨"transfer", "nonpayable",
        [ABIType.mk (.inl "address") none, ABIType.mk (.inl "uint256") none], []⟩
      ⟨"transfer", "nonpayable",
        [ABIType.mk (.inl "address") none, ABIType.mk (.inl "address") none,
         ABIType.mk (.inl "uint256") none], []⟩
      rfl (by decide) (by decide) (by decide) (by decide) (by decide)).1

/-- C5: hash-based selector lookup.  With a configured hash function `f` and
byte-width `n`, indexing with raw bytes returns the first entry whose hashed
selector agrees with the key on the first `n` bytes of both sides; with no
hash function configured, bytes indexing always raises `KeyError`, whatever
the contents. -/
theorem abilist_getitem_bytes_spec :
    (∀ (entries pre post : List MethodABI) (e : MethodABI) (n : Nat)
      (f : String → List Nat) (key : List Nat),
      entries = pre ++ e :: post →
      (f e.selector).take n = key.take n →
      (∀ x ∈ pre, (f x.selector).take n ≠ key.take n) →
      ABIList.getitem_bytes ⟨entries, n, some f⟩ key = .ok e)
    ∧ (∀ (entries : List MethodABI) (n : Nat) (key : List Nat),
      ABIList.getitem_bytes ⟨entries, n, none⟩ key = .error .keyError) := by
  constructor
  · intro entries pre post e n f key hent hmatch hpre
    subst hent
    have hfind : (pre ++ e :: post).find?
        (fun abi => (f abi.selector).take n == key.take n) = some e := by
      induction pre with
      | nil => simp [List.find?, hmatch]
      | cons p ps ih =>
        rw [List.cons_append, List.find?]
        have : ((f p.selector).take n == key.take n) = false := by
          simpa [beq_eq_decide] using hpre p (by simp)
        rw [this]
        exact ih (fun x hx => hpre x (List.mem_cons_of_mem _ hx))
    simp only [ABIList.getitem_bytes, hfind]
  · intro entries n key
    rfl

/-- C5 witness: the bytes-lookup theorem instantiated with the
length-of-selector hash, width 1, a singleton list and a matching key, plus
the no-hash-function case on the same entries. -/
theorem abilist_getitem_bytes_spec_witness :
    ABIList.getitem_bytes
        ⟨[⟨"f", "nonpayable", [], []⟩], 1, some (fun s => [s.length])⟩ [3, 99] =
      .ok ⟨"f", "nonpayable", [], []⟩
    ∧ ABIList.getitem_bytes ⟨[⟨"f", "nonpayable", [], []⟩], 1, none⟩ [3, 99] =
      .error .keyError :=
  ⟨abilist_getitem_bytes_spec.1 [⟨"f", "nonpayable", [], []⟩] []
      [] ⟨"f", "nonpayable", [], []⟩ 1 (fun s => [s.length]) [3, 99] rfl
      (by decide) (by intro x hx; exact absurd hx (List.not_mem_nil x)),
    abilist_getitem_bytes_spec.2 [⟨"f", "nonpayable", [], []⟩] 1 [3, 99]⟩

/-- A character of the comma-join comes from one of the parts or is the
separator. -/
theorem mem_joinCommaChars {c : Char} : ∀ {l : List (List Char)},
    c ∈ joinCommaChars l → c = ',' ∨ ∃ x ∈ l, c ∈ x := by
  intro l
  induction l with
  | nil => intro h; simp [joinCommaChars] at h
  | cons x xs ih =>
    intro h
    cases xs with
    | nil =>
      simp only [joinCommaChars] at h
      exact Or.inr ⟨x, by simp, h⟩
    | cons y ys =>
      simp only [joinCommaChars] at h
      rcases List.mem_append.mp h with hx | hrest
      · exact Or.inr ⟨x, by simp, hx⟩
      · rcases List.mem_cons.mp hrest with hc | hjoin
        · exact Or.inl hc
        · rcases ih hjoin with hc | ⟨z, hz, hcz⟩
          · exact Or.inl hc
          · exact Or.inr ⟨z, List.mem_cons_of_mem _ hz, hcz⟩

/-- C6: canonical types and selector formatting.  (1) The tuple type
`"tuple[]"` with scalar components `uint256` and `address` has canonical
type exactly `"(uint256,address)[]"`.  (2) Every `MethodABI` selector is the
name followed by the comma-joined canonical input types in parentheses.
(3) The selector contains no space when neither the name nor any canonical
input type does. -/
theorem canonical_type_and_selector :
    ABIType.canonicalType (.mk (.inl "tuple[]")
        (some [.mk (.inl "uint256") none, .mk (.inl "address") none])) =
      "(uint256,address)[]"
    ∧ (∀ m : MethodABI,
        m.selector = m.name ++ "(" ++ joinComma (canonicalTypeList m.inputs) ++ ")")
    ∧ (∀ m : MethodABI, ' ' ∉ m.name.toList →
        (∀ t ∈ canonicalTypeList m.inputs, ' ' ∉ t.toList) →
        ' ' ∉ m.selector.toList) := by
  refine ⟨by decide, fun m => rfl, ?_⟩
  intro m hname htypes hmem
  rw [selector_toList] at hmem
  rcases List.mem_append.mp hmem with h | h
  · exact hname h
  · rcases List.mem_cons.mp h with h | h
    · exact absurd h (by decide)
    · rcases List.mem_append.mp h with h | h
      · rw [joinComma_toList] at h
        rcases mem_joinCommaChars h with h | ⟨x, hx, hcx⟩
        · exact absurd h (by decide)
        · obtain ⟨t, ht, rfl⟩ := List.mem_map.mp hx
          exact htypes t ht hcx
      · exact absurd h (by decide)

/-- C6 witness: the no-space part instantiated at `transfer(address,uint256)`. -/
theorem canonical_type_and_selector_witness :
    (' ' ∉ ("transfer" : String).toList)
    ∧ (∀ t ∈ canonicalTypeList
        [ABIType.mk (.inl "address") none, ABIType.mk (.inl "uint256") none],
        ' ' ∉ t.toList)
    ∧ ' ' ∉ (MethodABI.selector ⟨"transfer", "nonpayable",
        [ABIType.mk (.inl "address") none, ABIType.mk (.inl "uint256") none],
        []⟩).toList :=
  ⟨by decide, by decide,
    canonical_type_and_selector.2.2 ⟨"transfer", "nonpayable",
      [ABIType.mk (.inl "address") none, ABIType.mk (.inl "uint256") none], []⟩
      (by decide) (by decide)⟩

theorem getFirstInstanceConstructor_of_prefix :
    ∀ (pre : List ABI) (c : ConstructorABI) (post : List ABI),
    (∀ x ∈ pre, x.isConstructor = false) →
    getFirstInstanceConstructor (pre ++ .constructor c :: post) = some c := by
  intro pre
  induction pre with
  | nil => intro c post _; rfl
  | cons x xs ih =>
    intro c post hpre
    have hx : x.isConstructor = false := hpre x (by simp)
    cases x <;> simp [ABI.isConstructor] at hx ⊢ <;>
      exact ih c post (fun y hy => hpre y (List.mem_cons_of_mem _ hy))

theorem getFirstInstanceConstructor_of_none :
    ∀ l : List ABI, (∀ x ∈ l, x.isConstructor = false) →
    getFirstInstanceConstructor l = none := by
  intro l
  induction l with
  | nil => intro _; rfl
  | cons x xs ih =>
    intro h
    have hx : x.isConstructor = false := h x (by simp)
    cases x <;> simp [ABI.isConstructor] at hx ⊢ <;>
      exact ih (fun y hy => h y (List.mem_cons_of_mem _ hy))

/-- C9: the `constructor` property is total — it always yields a
`ConstructorABI`.  If the abi list has a constructor entry, the result is
the first one in list order; otherwise it is the default constructor with
`stateMutability = "nonpayable"`, empty inputs, hence not payable. -/
theorem contract_type_constructor_total (ct : ContractType) :
    (∀ (pre : List ABI) (c : ConstructorABI) (post : List ABI),
      ct.abi = pre ++ .constructor c :: post →
      (∀ x ∈ pre, x.isConstructor = false) → ct.constructor = c)
    ∧ ((∀ x ∈ ct.abi, x.isConstructor = false) →
      ct.constructor = { stateMutability := "nonpayable", inputs := [] }
      ∧ ct.constructor.is_payable = false) := by
  constructor
  · intro pre c post habi hpre
    rw [ContractType.constructor, habi,
      getFirstInstanceConstructor_of_prefix pre c post hpre]
  · intro hnone
    have h : ct.constructor = { stateMutability := "nonpayable", inputs := [] } := by
      rw [ContractType.constructor, getFirstInstanceConstructor_of_none ct.abi hnone]
    exact ⟨h, by rw [h]; rfl⟩

/-- C9 witness: the constructor property on a contract type with a payable
constructor after a method, and on one with no constructor at all. -/
theorem contract_type_constructor_total_witness :
    ContractType.constructor
        ⟨some "C", some "c.vy",
          [.function ⟨"f", "nonpayable", [], []⟩, .constructor ⟨"payable", []⟩]⟩ =
      ⟨"payable", []⟩
    ∧ ContractType.constructor ⟨some "D", some "d.vy",
        [.function ⟨"f", "nonpayable", [], []⟩]⟩ =
      { stateMutability := "nonpayable", inputs := [] }
    ∧ (ContractType.constructor ⟨some "D", some "d.vy",
        [.function ⟨"f", "nonpayable", [], []⟩]⟩).is_payable = false :=
  ⟨(contract_type_constructor_total _).1 [.function ⟨"f", "nonpayable", [], []⟩]
      ⟨"payable", []⟩ [] rfl (by intro x hx; simp at hx; subst hx; rfl),
    ((contract_type_constructor_total _).2
      (by intro x hx; simp at hx; subst hx; rfl)).1,
    ((contract_type_constructor_total _).2
      (by intro x hx; simp at hx; subst hx; rfl)).2⟩

/-- C10: `PCMapItem.location` collapses both unset (`None`) and zero-valued
coordinate fields to `-1`, so a location with a zero line/column is
indistinguishable from one with that field unset. -/
theorem pcmapitem_location_zero_collapse (it : PCMapItem) :
    ((it.line_start = none ∨ it.line_start = some 0) → it.location.1 = -1)
    ∧ ((it.column_start = none ∨ it.column_start = some 0) → it.location.2.1 = -1)
    ∧ ((it.line_end = none ∨ it.line_end = some 0) → it.location.2.2.1 = -1)
    ∧ ((it.column_end = none ∨ it.column_end = some 0) → it.location.2.2.2 = -1)
    ∧ ({ it with line_start := some 0 } : PCMapItem).location =
        ({ it with line_start := none } : PCMapItem).location
    ∧ ({ it with column_start := some 0 } : PCMapItem).location =
        ({ it with column_start := none } : PCMapItem).location
    ∧ ({ it with line_end := some 0 } : PCMapItem).location =
        ({ it with line_end := none } : PCMapItem).location
    ∧ ({ it with column_end := some 0 } : PCMapItem).location =
        ({ it with column_end := none } : PCMapItem).location := by
  refine ⟨?_, ?_, ?_, ?_, ?_, ?_, ?_, ?_⟩ <;>
    first
    | (rintro (h | h) <;> simp [PCMapItem.location, optOrNeg1, h])
    | simp [PCMapItem.location, optOrNeg1]

/-- C10 witness: the collapse theorem instantiated at a record with
`line_start = 0`, `column_start` unset. -/
theorem pcmapitem_location_zero_collapse_witness :
    (PCMapItem.location ⟨some 0, none, some 7, some 8, none⟩).1 = -1
    ∧ (PCMapItem.location ⟨some 0, none, some 7, some 8, none⟩).2.1 = -1 :=
  ⟨(pcmapitem_location_zero_collapse ⟨some 0, none, some 7, some 8, none⟩).1
      (Or.inr rfl),
    (pcmapitem_location_zero_collapse ⟨some 0, none, some 7, some 8, none⟩).2.1
      (Or.inl rfl)⟩

/-! ## `manifest.py`

`PackageManifest` is a pydantic-v1 model.  Construction validates the fields
in declaration order (each field key enters the `values` dict with its
parsed value — the default for an unsupplied field), runs the field
validators, then runs the three `@root_validator`s in class order on the
complete `values` dict.  Pydantic v1 includes *every* field key in `values`
(a key is only absent when that field's own validation failed, which aborts
construction anyway), which is what `check_both_version_and_name` tests. -/

/-- `Source` (source.py).  Only the inlined content is carried: the claims
about manifests need the sources mapping's keys and a possibly-empty
content; URL/checksum machinery performs I/O and is out of scope. -/
structure Source where
  content : Option String := none

/-- `PackageName.__get_validators__` (manifest.py): length between 1 and
255, first character a–z, characters drawn from a–z, 0–9 and `-`. -/
def validatePackageName (value : String) : Except String Unit :=
  if !(0 < value.length && value.length < 256) then
    .error "Length must be between 1 and 255"
  else if !(value.toList.take 1).all (fun c => 'a' ≤ c && c ≤ 'z') then
    .error "First character in name must be a-z"
  else if !value.toList.all
      (fun c => ('a' ≤ c && c ≤ 'z') || ('0' ≤ c && c ≤ '9') || c = '-') then
    .error "Characters in name must be one of a-z or 0-9 or '-'"
  else
    .ok ()

/-- The field names of `PackageManifest`; pydantic v1 puts every one of them
into the `values` dict seen by the root validators. -/
def allManifestKeys : List String :=
  ["manifest", "name", "version", "meta", "sources", "contract_types",
   "compilers", "deployments", "dependencies"]

/-- The `values` dict passed between the root validators.  `keys` is the
dict's key set; `meta`, `compilers`, `deployments` and `dependencies` are
never read by a validator and are tracked through `keys` only. -/
structure MValues where
  keys : List String
  manifest : String
  name : Option String
  version : Option String
  sources : Option (List (String × Source))
  contract_types : Option (List (String × ContractType))

/-- `PackageManifest.check_valid_manifest_version`. -/
def checkValidManifestVersion (v : MValues) : Except String MValues :=
  if v.manifest ≠ "ethpm/3" then .error "Only ethPM V3 (EIP-2678) supported."
  else .ok v

/-- `PackageManifest.check_both_version_and_name`: tests *key membership* of
`"name"`/`"version"` in the `values` dict. -/
def checkBothVersionAndName (v : MValues) : Except String MValues :=
  if (v.keys.contains "name" || v.keys.contains "version")
      && (!v.keys.contains "name" || !v.keys.contains "version") then
    .error "Both `name` and `version` must be present if either is specified."
  else .ok v

/-- The loop of `PackageManifest.check_contract_source_ids`: raise on the
first contract type whose truthy `source_id` is not a key of `sources`. -/
def checkSourceIdsLoop (sources : List (String × Source)) :
    List (String × ContractType) → Except String Unit
  | [] => .ok ()
  | (_, ct) :: rest =>
    match ct.source_id with
    | some sid =>
      if sid ≠ "" && !(sources.map Prod.fst).contains sid then
        .error ("'" ++ sid ++ "' missing from `sources`.")
      else checkSourceIdsLoop sources rest
    | none => checkSourceIdsLoop sources rest

/-- `PackageManifest.check_contract_source_ids` (`None` mappings are treated
as empty dicts by the `or {}` in the Python). -/
def checkContractSourceIds (v : MValues) : Except String MValues :=
  match checkSourceIdsLoop (v.sources.getD []) (v.contract_types.getD []) with
  | .ok _ => .ok v
  | .error e => .error e

/-- `PackageManifest.add_name_to_contract_types` field validator: pydantic
model instances are always truthy, so `if not values[alias]` never fires and
the mapping is returned unchanged. -/
def addNameToContractTypes (cts : List (String × ContractType)) :
    List (String × ContractType) :=
  cts.map (fun av => if True then av else (av.1, { av.2 with name := some av.1 }))

/-- The constructed manifest (the fields the claims read). -/
structure PackageManifest where
  manifest : String
  name : Option String
  version : Option String
  sources : Option (List (String × Source))
  contract_types : Option (List (String × ContractType))

/-- `PackageManifest(...)` construction: field validation (PackageName
checks, the `contract_types` field validator — skipped by pydantic for a
`None` value), then the three root validators in class order. -/
def mkPackageManifest (manifest : String := "ethpm/3") (name : Option String := none)
    (version : Option String := none)
    (sources : Option (List (String × Source)) := none)
    (contract_types : Option (List (String × ContractType)) := none) :
    Except String PackageManifest := do
  match name with
  | some nm => validatePackageName nm
  | none => pure ()
  let cts := contract_types.map addNameToContractTypes
  let values : MValues :=
    ⟨allManifestKeys, manifest, name, version, sources, cts⟩
  let v1 ← checkValidManifestVersion values
  let v2 ← checkBothVersionAndName v1
  let v3 ← checkContractSourceIds v2
  pure ⟨v3.manifest, v3.name, v3.version, v3.sources, v3.contract_types⟩

/-- Truthy `source_id` entries that are keys of `sources` (the per-entry
pass condition of `check_contract_source_ids`). -/
def sourceIdOk (sources : List (String × Source)) (ct : ContractType) : Bool :=
  match ct.source_id with
  | some sid => sid == "" || (sources.map Prod.fst).contains sid
  | none => true

def exceptIsOk {ε α : Type} : Except ε α → Bool
  | .ok _ => true
  | .error _ => false

theorem addNameToContractTypes_id (cts : List (String × ContractType)) :
    addNameToContractTypes cts = cts := by
  simp [addNameToContractTypes]

/-- `check_both_version_and_name` can never fire on an intact `values` dict:
every field key is present, so its key-membership test is constant. -/
theorem checkBothVersionAndName_never_fires (v : MValues)
    (h : v.keys = allManifestKeys) : checkBothVersionAndName v = .ok v := by
  have hcond : ((allManifestKeys.contains "name" || allManifestKeys.contains "version")
      && (!allManifestKeys.contains "name" || !allManifestKeys.contains "version"))
      = false := by decide
  rw [checkBothVersionAndName, h, hcond]
  simp

theorem checkSourceIdsLoop_error (sources : List (String × Source))
    (cts : List (String × ContractType)) (al : String) (ct : ContractType)
    (sid : String) (hmem : (al, ct) ∈ cts) (hsid : ct.source_id = some sid)
    (hne : sid ≠ "") (hc : (sources.map Prod.fst).contains sid = false) :
    ∃ e, checkSourceIdsLoop sources cts = .error e := by
  induction cts with
  | nil => simp at hmem
  | cons hd rest ih =>
    obtain ⟨a0, c0⟩ := hd
    rcases List.mem_cons.mp hmem with heq | htail
    · injection heq with h1 h2
      subst h1
      subst h2
      refine ⟨"'" ++ sid ++ "' missing from `sources`.", ?_⟩
      have hcond : (decide (¬sid = "") && !(sources.map Prod.fst).contains sid)
          = true := by
        rw [hc]
        simp [hne]
      simp only [checkSourceIdsLoop, hsid]
      rw [if_pos hcond]
    · cases hs0 : c0.source_id with
      | none => simpa [checkSourceIdsLoop, hs0] using ih htail
      | some s0 =>
        by_cases hcond :
            (decide (¬s0 = "") && !(sources.map Prod.fst).contains s0) = true
        · refine ⟨"'" ++ s0 ++ "' missing from `sources`.", ?_⟩
          simp only [checkSourceIdsLoop, hs0]
          rw [if_pos hcond]
        · obtain ⟨e, he⟩ := ih htail
          refine ⟨e, ?_⟩
          simp only [checkSourceIdsLoop, hs0]
          rw [if_neg hcond]
          exact he

theorem checkSourceIdsLoop_ok (sources : List (String × Source))
    (cts : List (String × ContractType))
    (h : ∀ x ∈ cts, sourceIdOk sources x.2 = true) :
    checkSourceIdsLoop sources cts = .ok () := by
  induction cts with
  | nil => rfl
  | cons hd rest ih =>
    obtain ⟨a0, c0⟩ := hd
    have hok : sourceIdOk sources c0 = true := h (a0, c0) (by simp)
    cases hs0 : c0.source_id with
    | none =>
      simpa [checkSourceIdsLoop, hs0] using
        ih (fun x hx => h x (List.mem_cons_of_mem _ hx))
    | some s0 =>
      have hok2 : (s0 == "" || (sources.map Prod.fst).contains s0) = true := by
        rw [sourceIdOk, hs0] at hok
        exact hok
      have hcond :
          ¬((decide (¬s0 = "") && !(sources.map Prod.fst).contains s0) = true) := by
        intro habs
        rw [Bool.and_eq_true] at habs
        obtain ⟨hd, hnc⟩ := habs
        rw [Bool.or_eq_true] at hok2
        rcases hok2 with h1 | h1
        · exact (of_decide_eq_true hd) (beq_iff_eq.mp h1)
        · rw [h1] at hnc
          exact absurd hnc (by decide)
      simp only [checkSourceIdsLoop, hs0]
      rw [if_neg hcond]
      exact ih (fun x hx => h x (List.mem_cons_of_mem _ hx))

/-- Constructing a manifest with sources and contract types reduces to the
outcome of the source-id check (the version and name/version validators pass
on these inputs). -/
theorem mkPackageManifest_char (sources : List (String × Source))
    (cts : List (String × ContractType)) :
    mkPackageManifest "ethpm/3" none none (some sources) (some cts) =
      match checkSourceIdsLoop sources cts with
      | .ok _ => .ok ⟨"ethpm/3", none, none, some sources, some cts⟩
      | .error e => .error e := by
  have h1 : mkPackageManifest "ethpm/3" none none (some sources) (some cts) =
      Except.bind (checkContractSourceIds
        ⟨allManifestKeys, "ethpm/3", none, none, some sources,
          some (addNameToContractTypes cts)⟩)
        (fun v3 => Except.ok
          ⟨v3.manifest, v3.name, v3.version, v3.sources, v3.contract_types⟩) := rfl
  rw [h1, addNameToContractTypes_id]
  have h2 : checkContractSourceIds
      ⟨allManifestKeys, "ethpm/3", none, none, some sources, some cts⟩ =
      match checkSourceIdsLoop sources cts with
      | .ok _ => .ok ⟨allManifestKeys, "ethpm/3", none, none, some sources, some cts⟩
      | .error e => .error e := rfl
  rw [h2]
  cases checkSourceIdsLoop sources cts with
  | ok u => rfl
  | error e => rfl

/-- C2: manifest source-reference invariant.  Construction fails whenever
some contract type declares a truthy `source_id` that is not a key of the
sources mapping, and succeeds when every declared `source_id` is a key of
`sources` (even one whose `Source` has empty content). -/
theorem manifest_source_id_invariant :
    (∀ (sources : List (String × Source)) (cts : List (String × ContractType))
      (al : String) (ct : ContractType) (sid : String),
      (al, ct) ∈ cts → ct.source_id = some sid → sid ≠ "" →
      (sources.map Prod.fst).contains sid = false →
      exceptIsOk (mkPackageManifest "ethpm/3" none none
        (some sources) (some cts)) = false)
    ∧ (∀ (sources : List (String × Source)) (cts : List (String × ContractType)),
      (∀ x ∈ cts, sourceIdOk sources x.2 = true) →
      mkPackageManifest "ethpm/3" none none (some sources) (some cts) =
        .ok ⟨"ethpm/3", none, none, some sources, some cts⟩) := by
  constructor
  · intro sources cts al ct sid hmem hsid hne hc
    obtain ⟨e, he⟩ := checkSourceIdsLoop_error sources cts al ct sid hmem hsid hne hc
    rw [mkPackageManifest_char, he]
    rfl
  · intro sources cts h
    rw [mkPackageManifest_char, checkSourceIdsLoop_ok sources cts h]

/-- C2 witness: a contract type aliased `A` with `source_id = "b.vy"`; the
manifest fails when `sources` holds only `"a.vy"` and succeeds once `"b.vy"`
is added mapped to a `Source` with empty content. -/
theorem manifest_source_id_invariant_witness :
    exceptIsOk (mkPackageManifest "ethpm/3" none none
        (some [("a.vy", ⟨none⟩)])
        (some [("A", ⟨none, some "b.vy", []⟩)])) = false
    ∧ mkPackageManifest "ethpm/3" none none
        (some [("a.vy", ⟨none⟩), ("b.vy", ⟨some ""⟩)])
        (some [("A", ⟨none, some "b.vy", []⟩)]) =
      .ok ⟨"ethpm/3", none, none,
        some [("a.vy", ⟨none⟩), ("b.vy", ⟨some ""⟩)],
        some [("A", ⟨none, some "b.vy", []⟩)]⟩ :=
  ⟨manifest_source_id_invariant.1 [("a.vy", ⟨none⟩)]
      [("A", ⟨none, some "b.vy", []⟩)] "A" ⟨none, some "b.vy", []⟩ "b.vy"
      (List.mem_singleton.mpr rfl) rfl (by decide) (by decide),
    manifest_source_id_invariant.2 [("a.vy", ⟨none⟩), ("b.vy", ⟨some ""⟩)]
      [("A", ⟨none, some "b.vy", []⟩)] (by decide)⟩

/-- C3: the name/version co-presence check never rejects anything.
`check_both_version_and_name` tests `"name" in values` / `"version" in
values`, but pydantic v1 always includes every field key in the `values`
dict (a key is missing only when that field itself failed validation), so a
manifest with a name and no version — and one with a version and no name —
constructs successfully, contradicting the documented intent of the
validator's own error message. -/
theorem manifest_name_without_version_accepted :
    mkPackageManifest "ethpm/3" (some "package") none none none =
      .ok ⟨"ethpm/3", some "package", none, none, none⟩
    ∧ mkPackageManifest "ethpm/3" none (some "1.0.0") none none =
      .ok ⟨"ethpm/3", none, some "1.0.0", none, none⟩
    ∧ (∀ v : MValues, v.keys = allManifestKeys →
      checkBothVersionAndName v = .ok v) :=
  ⟨rfl, rfl, checkBothVersionAndName_never_fires⟩

/-- C3 witness: the never-fires conjunct applied to the `values` dict of a
name-only manifest. -/
theorem manifest_name_without_version_accepted_witness :
    checkBothVersionAndName
        ⟨allManifestKeys, "ethpm/3", some "package", none, none, none⟩ =
      .ok ⟨allManifestKeys, "ethpm/3", some "package", none, none, none⟩ :=
  manifest_name_without_version_accepted.2.2
    ⟨allManifestKeys, "ethpm/3", some "package", none, none, none⟩ rfl

/-! ## `ast.py` and `source.py` -/

/-- `ASTClassification` (ast.py). -/
inductive ASTClassification where
  | unclassified
  | function
deriving DecidableEq, Repr

/-- `ASTNode` (ast.py): classification, line span and children.  (`name`,
`ast_type`, `src` and the column offsets are not read by
`_parse_function`.) -/
inductive ASTNode where
  | node (classification : ASTClassification) (lineno end_lineno : Int)
      (children : List ASTNode)

def ASTNode.classification : ASTNode → ASTClassification
  | .node c _ _ _ => c

def ASTNode.lineno : ASTNode → Int
  | .node _ l _ _ => l

def ASTNode.end_lineno : ASTNode → Int
  | .node _ _ e _ => e

def ASTNode.children : ASTNode → List ASTNode
  | .node _ _ _ cs => cs

/-- `Content` (source.py): a mapping from line numbers to line text,
modeled as the dict's insertion-ordered association list (keys unique). -/
structure Content where
  root : List (Nat × String)

/-- Python dict `__getitem__` over the association list. -/
def assocGet (root : List (Nat × String)) (k : Nat) : Option String :=
  match root with
  | [] => none
  | (k', v) :: rest => if k' = k then some v else assocGet rest k

def insertSorted (x : Nat) : List Nat → List Nat
  | [] => [x]
  | y :: ys => if x ≤ y then x :: y :: ys else y :: insertSorted x ys

/-- Python's `sorted(...)` on the key list. -/
def pySorted : List Nat → List Nat
  | [] => []
  | x :: xs => insertSorted x (pySorted xs)

/-- `Content.line_numbers`: all line numbers in ascending order. -/
def Content.line_numbers (c : Content) : List Nat :=
  pySorted (c.root.map Prod.fst)

/-- A Python slice index for step-1 slices: negative indices count from the
end, and both ends clamp into `[0, len]`. -/
def pyIdx (len : Nat) (i : Int) : Nat :=
  if i < 0 then ((len : Int) + i).toNat else min i.toNat len

/-- Python `l[a:b]`. -/
def pyListSlice {α : Type} (l : List α) (a b : Int) : List α :=
  (l.drop (pyIdx l.length a)).take (pyIdx l.length b - pyIdx l.length a)

/-- Python `l[:b]`. -/
def pySliceTo {α : Type} (l : List α) (b : Int) : List α :=
  l.take (pyIdx l.length b)

/-- Python `l[a:]`. -/
def pySliceFrom {α : Type} (l : List α) (a : Int) : List α :=
  l.drop (pyIdx l.length a)

/-- `Source` content wrapper used by `ContractSource` (`Source.content` is
`Optional[Content]`; accessing lines with no content raises). -/
structure SourceFile where
  content : Option Content := none

/-- `Source.__getitem__` with a slice: slice the *positional* list of line
numbers, then look each resulting line number up in the content dict. -/
def sourceGetSlice (src : SourceFile) (a b : Int) : Option (List String) := do
  let c ← src.content
  (pyListSlice c.line_numbers a b).mapM (fun x => assocGet c.root x)

/-- The child-scanning loop of `ContractSource._parse_function`: the least
child line number strictly after the function's own start line whose
classification is not `FUNCTION`. -/
def contentStartLoop (flineno : Int) : List ASTNode → Option Int → Option Int
  | [], acc => acc
  | child :: rest, acc =>
    contentStartLoop flineno rest
      (if (decide (flineno < child.lineno)
          && decide (child.classification ≠ ASTClassification.function)
          && (match acc with
              | none => true
              | some cs => decide (child.lineno < cs))) = true
        then some child.lineno else acc)

/-- `ContractSource._parse_function`: take the function's line range
(`lineno - 1` through `end_lineno`), find the first body line from the
children (defaulting to `lineno + 1`), and split the range into signature
lines and content lines at that offset. -/
def parse_function (function : ASTNode) (source : SourceFile) :
    Option (List String × List String) := do
  let start := function.lineno - 1
  let endLineno := function.end_lineno
  let lines ← sourceGetSlice source start endLineno
  let content_start :=
    (contentStartLoop function.lineno function.children none).getD
      (function.lineno + 1)
  let offset := content_start - function.lineno
  some (pySliceTo lines offset, pySliceFrom lines offset)

/-- A source file whose content is the consecutive lines `1..n` with text
`f i` on line `i`. -/
def mkConsecutiveSource (n : Nat) (f : Nat → String) : SourceFile :=
  ⟨some ⟨(List.range' 1 n).map (fun i => (i, f i))⟩⟩

theorem range'_drop : ∀ (k n s : Nat), k ≤ n →
    (List.range' s n).drop k = List.range' (s + k) (n - k) := by
  intro k
  induction k with
  | zero => intro n s _; simp
  | succ k ih =>
    intro n s hk
    cases n with
    | zero => exact absurd hk (by omega)
    | succ n =>
      rw [List.range'_succ, List.drop_succ_cons, ih n (s + 1) (by omega)]
      have h1 : s + 1 + k = s + (k + 1) := by omega
      have h2 : n - k = n + 1 - (k + 1) := by omega
      rw [h1, h2]

theorem range'_take : ∀ (k n s : Nat), k ≤ n →
    (List.range' s n).take k = List.range' s k := by
  intro k
  induction k with
  | zero => intro n s _; simp
  | succ k ih =>
    intro n s hk
    cases n with
    | zero => exact absurd hk (by omega)
    | succ n =>
      rw [List.range'_succ, List.take_succ_cons, List.range'_succ,
        ih n (s + 1) (by omega)]

theorem pySorted_range' : ∀ (n s : Nat), pySorted (List.range' s n) = List.range' s n := by
  intro n
  induction n with
  | zero => intro s; rfl
  | succ n ih =>
    intro s
    rw [List.range'_succ]
    show insertSorted s (pySorted (List.range' (s + 1) n)) = _
    rw [ih (s + 1)]
    cases n with
    | zero => rfl
    | succ m =>
      rw [List.range'_succ]
      show (if s ≤ s + 1 then _ else _) = _
      rw [if_pos (by omega)]

theorem mkConsecutiveSource_line_numbers (n : Nat) (f : Nat → String) :
    Content.line_numbers ⟨(List.range' 1 n).map (fun i => (i, f i))⟩ =
      List.range' 1 n := by
  rw [Content.line_numbers]
  show pySorted (((List.range' 1 n).map (fun i => (i, f i))).map Prod.fst) = _
  rw [List.map_map]
  have : (Prod.fst ∘ fun i => (i, f i)) = fun (i : Nat) => i := rfl
  rw [this, List.map_id']
  exact pySorted_range' n 1

theorem assocGet_consecutive (f : Nat → String) :
    ∀ (m s k : Nat), s ≤ k → k < s + m →
    assocGet ((List.range' s m).map (fun i => (i, f i))) k = some (f k) := by
  intro m
  induction m with
  | zero => intro s k h1 h2; omega
  | succ m ih =>
    intro s k h1 h2
    rw [List.range'_succ, List.map_cons]
    show (if s = k then some (f s) else _) = _
    by_cases hsk : s = k
    · rw [if_pos hsk, hsk]
    · rw [if_neg hsk]
      exact ih (s + 1) k (by omega) (by omega)

/-- Once the accumulator holds the minimum qualifying line, the scan keeps it. -/
theorem contentStartLoop_keeps (flineno m : Int) :
    ∀ (cs : List ASTNode),
    (∀ c ∈ cs, flineno < c.lineno → c.classification ≠ .function → m ≤ c.lineno) →
    contentStartLoop flineno cs (some m) = some m := by
  intro cs
  induction cs with
  | nil => intro _; rfl
  | cons child rest ih =>
    intro h
    simp only [contentStartLoop]
    have hcond : (decide (flineno < child.lineno)
        && decide (child.classification ≠ ASTClassification.function)
        && (match (some m : Option Int) with
            | none => true
            | some cs => decide (child.lineno < cs))) = false := by
      by_cases h1 : flineno < child.lineno
      · by_cases h2 : child.classification ≠ ASTClassification.function
        · have hle := h child (by simp) h1 h2
          simp [h1, h2, hle, not_lt.mpr hle]
        · simp [h2]
      · simp [h1]
    rw [hcond]
    show contentStartLoop flineno rest (some m) = some m
    exact ih (fun c hc => h c (List.mem_cons_of_mem _ hc))

/-- The scan of `_parse_function` computes the minimum qualifying child
line: if every qualifying child (line after the function's own, not itself
a function) is at line `m` or later and some qualifying child is at exactly
`m`, the scan yields `some m` from a `none` or already-`≥ m` accumulator. -/
theorem contentStartLoop_min (flineno m : Int) :
    ∀ (cs : List ASTNode) (acc : Option Int),
    (∀ c ∈ cs, flineno < c.lineno → c.classification ≠ .function → m ≤ c.lineno) →
    (acc = none ∨ ∃ a, acc = some a ∧ m ≤ a) →
    (∃ c ∈ cs, c.lineno = m ∧ flineno < c.lineno ∧
      c.classification ≠ .function) →
    contentStartLoop flineno cs acc = some m := by
  intro cs
  induction cs with
  | nil =>
    intro acc _ _ hex
    simp at hex
  | cons child rest ih =>
    intro acc hmin hacc hex
    simp only [contentStartLoop]
    by_cases hw : child.lineno = m ∧ flineno < child.lineno ∧
        child.classification ≠ ASTClassification.function
    · obtain ⟨hlm, hfl, hcl⟩ := hw
      have hrest := contentStartLoop_keeps flineno m rest
        (fun c hc => hmin c (List.mem_cons_of_mem _ hc))
      split
      · rw [hlm]
        exact hrest
      · next hneg =>
        rcases hacc with rfl | ⟨a, rfl, hma⟩
        · exact absurd (by simp [hfl, hcl]) hneg
        · have ham : a = m := by
            by_contra hne
            apply hneg
            have hlt : child.lineno < a := by omega
            simp [hfl, hcl, hlt]
          rw [ham]
          exact hrest
    · have hex' : ∃ c ∈ rest, c.lineno = m ∧ flineno < c.lineno ∧
          c.classification ≠ .function := by
        rcases hex with ⟨c, hc, hprops⟩
        rcases List.mem_cons.mp hc with rfl | hcr
        · exact absurd hprops hw
        · exact ⟨c, hcr, hprops⟩
      apply ih _ (fun c hc => hmin c (List.mem_cons_of_mem _ hc)) ?_ hex'
      split
      · next hcnd =>
        rw [Bool.and_eq_true] at hcnd
        obtain ⟨h12, _⟩ := hcnd
        rw [Bool.and_eq_true] at h12
        right
        exact ⟨child.lineno, rfl, hmin child (by simp)
          (of_decide_eq_true h12.1) (of_decide_eq_true h12.2)⟩
      · exact hacc

theorem sourceGetSlice_consecutive (n : Nat) (f : Nat → String) (hn : 14 ≤ n) :
    sourceGetSlice (mkConsecutiveSource n f) 9 14 =
      some [f 10, f 11, f 12, f 13, f 14] := by
  have h0 : sourceGetSlice (mkConsecutiveSource n f) 9 14 =
      (pyListSlice
        (Content.line_numbers ⟨(List.range' 1 n).map (fun i => (i, f i))⟩) 9 14).mapM
        (fun x => assocGet ((List.range' 1 n).map (fun i => (i, f i))) x) := rfl
  rw [h0, mkConsecutiveSource_line_numbers]
  have hslice : pyListSlice (List.range' 1 n) 9 14 = List.range' 10 5 := by
    rw [pyListSlice, List.length_range']
    have h9 : pyIdx n 9 = 9 := by
      rw [pyIdx, if_neg (by omega)]
      show min (Int.toNat 9) n = 9
      omega
    have h14 : pyIdx n 14 = 14 := by
      rw [pyIdx, if_neg (by omega)]
      show min (Int.toNat 14) n = 14
      omega
    rw [h9, h14, range'_drop 9 n 1 (by omega)]
    rw [range'_take (14 - 9) (n - 9) (1 + 9) (by omega)]
  rw [hslice]
  have hr : List.range' 10 5 = [10, 11, 12, 13, 14] := rfl
  rw [hr]
  have hget : ∀ k : Nat, 1 ≤ k → k < 1 + n →
      assocGet ((List.range' 1 n).map (fun i => (i, f i))) k = some (f k) :=
    fun k h1 h2 => assocGet_consecutive f n 1 k h1 h2
  simp [List.mapM.loop, hget 10 (by omega) (by omega), hget 11 (by omega) (by omega),
    hget 12 (by omega) (by omega), hget 13 (by omega) (by omega),
    hget 14 (by omega) (by omega)]

/-- C7: function boundary split.  For source content holding consecutive
lines `1..n` (`n ≥ 14`) and a function AST node spanning lines 10–14 whose
first body-statement child (a child past line 10 that is not classified as a
function) is at line 12, `_parse_function` returns signature lines exactly
10–11 and body lines exactly 12–14. -/
theorem parse_function_split (n : Nat) (f : Nat → String)
    (cls : ASTClassification) (children : List ASTNode)
    (hn : 14 ≤ n)
    (hmin : ∀ c ∈ children, (10 : Int) < c.lineno →
      c.classification ≠ .function → (12 : Int) ≤ c.lineno)
    (hex : ∃ c ∈ children, c.lineno = (12 : Int) ∧ (10 : Int) < c.lineno ∧
      c.classification ≠ .function) :
    parse_function (.node cls 10 14 children) (mkConsecutiveSource n f) =
      some ([f 10, f 11], [f 12, f 13, f 14]) := by
  have h1 : parse_function (.node cls 10 14 children) (mkConsecutiveSource n f) =
      (sourceGetSlice (mkConsecutiveSource n f) 9 14).bind (fun lines =>
        some (pySliceTo lines
            ((contentStartLoop 10 children none).getD 11 - 10),
          pySliceFrom lines
            ((contentStartLoop 10 children none).getD 11 - 10))) := rfl
  rw [h1, sourceGetSlice_consecutive n f hn,
    contentStartLoop_min 10 12 children none hmin (Or.inl rfl) hex]
  show some (pySliceTo [f 10, f 11, f 12, f 13, f 14] 2,
    pySliceFrom [f 10, f 11, f 12, f 13, f 14] 2) = _
  rfl

/-- C7 witness: the boundary-split theorem instantiated with 14 numbered
lines and a single body-statement child at line 12. -/
theorem parse_function_split_witness :
    (14 ≤ 14
    ∧ (∀ c ∈ [ASTNode.node .unclassified 12 12 []], (10 : Int) < c.lineno →
        c.classification ≠ .function → (12 : Int) ≤ c.lineno)
    ∧ (∃ c ∈ [ASTNode.node .unclassified 12 12 []], c.lineno = (12 : Int) ∧
        (10 : Int) < c.lineno ∧ c.classification ≠ .function))
    ∧ parse_function (.node .function 10 14 [ASTNode.node .unclassified 12 12 []])
        (mkConsecutiveSource 14 (fun i => toString i)) =
      some ([toString 10, toString 11],
        [toString 12, toString 13, toString 14]) :=
  ⟨⟨by decide, by decide, by decide⟩,
    parse_function_split 14 (fun i => toString i) .function
      [ASTNode.node .unclassified 12 12 []] (by decide) (by decide) (by decide)⟩

end GasComps
